import Mathlib

/-!
Verification of the JsMeetsStarlette messaging core against its
natural-language specification.  The Python modules `JsPyTextSocket`,
`JsPyFunction`, `JsPyPubsub` and `JsPyQueue` are shallowly embedded:
Python dicts become insertion-ordered association lists, asyncio futures
become `Option`-valued slots, and the cooperative scheduling of
`_call_from_js` tasks becomes an explicit small-step machine.
-/

namespace JsMeets

/-- A JSON-representable value as carried in an envelope field
(`null`, booleans, integers, strings cover every field the handlers
inspect; payloads that are merely forwarded stay opaque). -/
inductive JVal where
  | null
  | bool (b : Bool)
  | num (n : Int)
  | str (s : String)
  deriving DecidableEq, Repr

/-- Python `isinstance(x, int)` plus the value as an integer:
`bool` is a subclass of `int` in Python, everything else is not. -/
def pyIntValue : JVal → Option Int
  | .num n => some n
  | .bool b => some (if b then 1 else 0)
  | _ => none

/-- Python truthiness test (`if not x` takes the falsy branch). -/
def pyFalsy : JVal → Bool
  | .null => true
  | .bool b => !b
  | .num n => n = 0
  | .str s => s = ""

/-- Lookup in an insertion-ordered association list (Python dict read). -/
def getA {α β : Type} [DecidableEq α] : List (α × β) → α → Option β
  | [], _ => none
  | (k, v) :: rest, key => if key = k then some v else getA rest key

/-- Python dict write `d[k] = v`: replace in place if the key exists,
otherwise append at the end (insertion order). -/
def setA {α β : Type} [DecidableEq α] : List (α × β) → α → β → List (α × β)
  | [], key, v => [(key, v)]
  | (k, w) :: rest, key, v =>
      if key = k then (k, v) :: rest else (k, w) :: setA rest key v

/-- Python dict delete `del d[k]` (removes the first binding). -/
def eraseA {α β : Type} [DecidableEq α] : List (α × β) → α → List (α × β)
  | [], _ => []
  | (k, w) :: rest, key => if key = k then rest else (k, w) :: eraseA rest key

/-- The keys of an association list, in insertion order. -/
def keysA {α β : Type} (l : List (α × β)) : List α := l.map Prod.fst

theorem getA_setA_self {α β : Type} [DecidableEq α]
    (l : List (α × β)) (k : α) (v : β) : getA (setA l k v) k = some v := by
  induction l with
  | nil => simp [setA, getA]
  | cons p rest ih =>
      obtain ⟨k0, w⟩ := p
      by_cases h : k = k0 <;> simp [setA, getA, h, ih]

theorem getA_setA_ne {α β : Type} [DecidableEq α]
    (l : List (α × β)) (k k' : α) (v : β) (h : k' ≠ k) :
    getA (setA l k v) k' = getA l k' := by
  induction l with
  | nil => simp [setA, getA, h]
  | cons p rest ih =>
      obtain ⟨k0, w⟩ := p
      by_cases h0 : k = k0
      · subst h0; simp [setA, getA, h]
      · by_cases h1 : k' = k0 <;> simp [setA, getA, h0, h1, ih]

theorem setA_of_getA_self {α β : Type} [DecidableEq α]
    (l : List (α × β)) (k : α) (v : β) (h : getA l k = some v) :
    setA l k v = l := by
  induction l with
  | nil => simp [getA] at h
  | cons p rest ih =>
      obtain ⟨k0, w⟩ := p
      by_cases h0 : k = k0
      · subst h0
        simp [getA] at h
        simp [setA, h]
      · simp [getA, h0] at h
        simp [setA, h0, ih h]

theorem setA_append_of_not_mem {α β : Type} [DecidableEq α]
    (l : List (α × β)) (k : α) (v : β) (h : k ∉ keysA l) :
    setA l k v = l ++ [(k, v)] := by
  induction l with
  | nil => simp [setA]
  | cons p rest ih =>
      obtain ⟨k0, w⟩ := p
      simp [keysA] at h
      simp [setA, h.1, ih (by simpa [keysA] using h.2)]

theorem getA_of_not_mem {α β : Type} [DecidableEq α]
    (l : List (α × β)) (k : α) (h : k ∉ keysA l) : getA l k = none := by
  induction l with
  | nil => simp [getA]
  | cons p rest ih =>
      obtain ⟨k0, w⟩ := p
      simp [keysA] at h
      simp [getA, h.1, ih (by simpa [keysA] using h.2)]

theorem getA_append_right {α β : Type} [DecidableEq α]
    (l l' : List (α × β)) (k : α) (h : k ∉ keysA l) :
    getA (l ++ l') k = getA l' k := by
  induction l with
  | nil => simp
  | cons p rest ih =>
      obtain ⟨k0, w⟩ := p
      simp [keysA] at h
      simp [getA, h.1, ih (by simpa [keysA] using h.2)]

theorem keysA_setA {α β : Type} [DecidableEq α]
    (l : List (α × β)) (k : α) (v : β) (h : k ∈ keysA l) :
    keysA (setA l k v) = keysA l := by
  induction l with
  | nil => simp [keysA] at h
  | cons p rest ih =>
      obtain ⟨k0, w⟩ := p
      by_cases h0 : k = k0
      · subst h0; simp [setA, keysA]
      · have h1 : k ∈ keysA rest := by
          rcases (by simpa [keysA] using h : k = k0 ∨ k ∈ keysA rest) with h2 | h2
          · exact absurd h2 h0
          · exact h2
        simp [setA, keysA, h0]
        simpa [keysA] using ih h1

theorem eraseA_append_of_not_mem {α β : Type} [DecidableEq α]
    (l l' : List (α × β)) (k : α) (h : k ∉ keysA l) :
    eraseA (l ++ l') k = l ++ eraseA l' k := by
  induction l with
  | nil => simp
  | cons p rest ih =>
      obtain ⟨k0, w⟩ := p
      simp [keysA] at h
      simp [eraseA, h.1, ih (by simpa [keysA] using h.2)]

/-! ## Correlation slots (`_call_memory` / `_queue_memory`)

A pending call's futures list becomes `List (Option α)`: `none` is a
future that is not yet done, `some v` a resolved one.  Resolving walks
the list and settles the first not-done slot, exactly like the
`for ft in ...: if ft.done(): continue else: ...; break` loops. -/

/-- Settle the first not-done slot with `v`; the `for`/`break` loop of
`_return_from_js` and `_queue_return`. -/
def resolveFirst {α : Type} (v : α) : List (Option α) → List (Option α)
  | [] => []
  | none :: rest => some v :: rest
  | some w :: rest => some w :: resolveFirst v rest

theorem resolveFirst_all_done {α : Type} (v : α) (slots : List (Option α))
    (h : ∀ s ∈ slots, s ≠ none) : resolveFirst v slots = slots := by
  induction slots with
  | nil => rfl
  | cons s rest ih =>
      cases s with
      | none => exact absurd rfl (h none (List.mem_cons_self _ _))
      | some w =>
          simp [resolveFirst]
          exact ih fun s hs => h s (List.mem_cons_of_mem _ hs)

theorem resolveFirst_split {α : Type} (v : α) (xs : List α)
    (rest : List (Option α)) :
    resolveFirst v (xs.map some ++ none :: rest) =
      (xs ++ [v]).map some ++ rest := by
  induction xs with
  | nil => simp [resolveFirst]
  | cons x xs ih => simp [resolveFirst, ih]

/-- What a resolved slot of `_call_memory` holds: `set_result((socket_id,
data))` or `set_exception(JsPyError(excpt, ..., socket_id))`. -/
inductive FutureVal where
  | result (socketId : Nat) (data : JVal)
  | errval (socketId : Nat) (excpt : JVal)
  deriving DecidableEq, Repr

/-- The value the reply envelope settles a function-call slot with
(`if excpt is not None: set_exception ... else: set_result ...`). -/
def functionReplyVal (socketId : Nat) (data excpt : JVal) : FutureVal :=
  if excpt = .null then .result socketId data else .errval socketId excpt

/-- `JsPyFunction._return_from_js`: on a `function_return` envelope,
if the `id` field is an int and a key of `_call_memory`, settle the
first not-done future of that entry; otherwise ignore the envelope. -/
def returnFromJs (memory : List (Int × List (Option FutureVal)))
    (socketId : Nat) (envId data excpt : JVal) :
    List (Int × List (Option FutureVal)) :=
  match pyIntValue envId with
  | none => memory
  | some n =>
      match getA memory n with
      | none => memory
      | some slots =>
          setA memory n (resolveFirst (functionReplyVal socketId data excpt) slots)

/-- What a resolved slot of `_queue_memory` holds: `set_result(socket_id)`
or `set_exception(exception)`. -/
inductive QueueAckVal where
  | ack (socketId : Nat)
  | errval (excpt : JVal)
  deriving DecidableEq, Repr

/-- The value a `queue_return` envelope settles a slot with
(`if not exception: set_result(socket_id) else: set_exception(exception)`,
a Python truthiness test). -/
def queueReplyVal (socketId : Nat) (excpt : JVal) : QueueAckVal :=
  if pyFalsy excpt then .ack socketId else .errval excpt

/-- `JsPyQueue._queue_return`: on a `queue_return` envelope, if the `id`
field is an int and a key of `_queue_memory`, settle the first not-done
future of that entry; otherwise ignore the envelope. -/
def queueReturn (memory : List (Int × List (Option QueueAckVal)))
    (socketId : Nat) (envId excpt : JVal) :
    List (Int × List (Option QueueAckVal)) :=
  match pyIntValue envId with
  | none => memory
  | some n =>
      match getA memory n with
      | none => memory
      | some slots =>
          setA memory n (resolveFirst (queueReplyVal socketId excpt) slots)

theorem returnFromJs_not_mem (memory : List (Int × List (Option FutureVal)))
    (socketId : Nat) (envId data excpt : JVal) (n : Int)
    (hid : pyIntValue envId = some n) (h : getA memory n = none) :
    returnFromJs memory socketId envId data excpt = memory := by
  simp [returnFromJs, hid, h]

theorem queueReturn_not_mem (memory : List (Int × List (Option QueueAckVal)))
    (socketId : Nat) (envId excpt : JVal) (n : Int)
    (hid : pyIntValue envId = some n) (h : getA memory n = none) :
    queueReturn memory socketId envId excpt = memory := by
  simp [queueReturn, hid, h]

theorem returnFromJs_mem (memory : List (Int × List (Option FutureVal)))
    (socketId : Nat) (envId data excpt : JVal) (n : Int) (slots : List (Option FutureVal))
    (hid : pyIntValue envId = some n) (h : getA memory n = some slots) :
    returnFromJs memory socketId envId data excpt =
      setA memory n (resolveFirst (functionReplyVal socketId data excpt) slots) := by
  simp [returnFromJs, hid, h]

theorem returnFromJs_all_done (memory : List (Int × List (Option FutureVal)))
    (socketId : Nat) (envId data excpt : JVal) (n : Int) (slots : List (Option FutureVal))
    (hid : pyIntValue envId = some n) (h : getA memory n = some slots)
    (hdone : ∀ s ∈ slots, s ≠ none) :
    returnFromJs memory socketId envId data excpt = memory := by
  rw [returnFromJs_mem memory socketId envId data excpt n slots hid h,
      resolveFirst_all_done _ _ hdone, setA_of_getA_self _ _ _ h]

/-! ## Exposed-function table (`JsPyFunction._exposed_function`)

A table entry is the Python list
`[Callable, iscoroutine: bool, is_running: bool, queue.Queue or None]`.
Callables are abstracted by an identifier plus their
`asyncio.iscoroutinefunction` flag. -/

/-- An abstract Python callable: an identity plus whether
`asyncio.iscoroutinefunction` holds of it. -/
structure PyFunc where
  id : Nat
  isCoroutineFn : Bool
  deriving DecidableEq, Repr

/-- One `_exposed_function` entry:
`[func, iscoroutine, is_running, queue or None]`.  The exclusive wait
list is `some waiters` when a `queue.Queue` is attached, `none` when the
fourth element is Python `None`. -/
structure FunctionRecord where
  func : PyFunc
  iscoroutine : Bool
  isRunning : Bool
  exclusiveWaiters : Option (List Nat)
  deriving DecidableEq, Repr

/-- `JsPyFunction.expose(key, func, exclusive)`: fail (and leave the
table alone) when the key exists with its running flag set, otherwise
overwrite the entry and succeed. -/
def expose (tbl : List (String × FunctionRecord)) (key : String)
    (func : PyFunc) (exclusive : Bool) : Bool × List (String × FunctionRecord) :=
  match getA tbl key with
  | some r =>
      if r.isRunning then (false, tbl)
      else (true, setA tbl key
        ⟨func, func.isCoroutineFn, false, if exclusive then some [] else none⟩)
  | none =>
      (true, setA tbl key
        ⟨func, func.isCoroutineFn, false, if exclusive then some [] else none⟩)

/-- Result of the decorator `JsPyFunction.callable` /
`exclusive_callable`: either the function itself (registration
succeeded) or the `KeyError` it raises on a duplicate name. -/
inductive DecoratorResult where
  | returned (f : PyFunc)
  | keyError (msg : String)
  deriving DecidableEq, Repr

/-- `JsPyFunction.callable`: register under `func.__name__` (the `name`
argument) when the name is absent, else raise `KeyError`; the running
flag is not consulted. -/
def callableDecorator (tbl : List (String × FunctionRecord)) (name : String)
    (func : PyFunc) : DecoratorResult × List (String × FunctionRecord) :=
  match getA tbl name with
  | none =>
      (.returned func, setA tbl name ⟨func, func.isCoroutineFn, false, none⟩)
  | some _ =>
      (.keyError ("The exposed function \x22" ++ name ++ "\x22 is invalid @python"), tbl)

/-- `JsPyFunction.exclusive_callable`: as `callable`, but the entry
gets a `queue.Queue` wait list attached. -/
def exclusiveCallableDecorator (tbl : List (String × FunctionRecord))
    (name : String) (func : PyFunc) :
    DecoratorResult × List (String × FunctionRecord) :=
  match getA tbl name with
  | none =>
      (.returned func, setA tbl name ⟨func, func.isCoroutineFn, false, some []⟩)
  | some _ =>
      (.keyError ("The exposed function \x22" ++ name ++ "\x22 is invalid @python"), tbl)

/-! ## Pub/sub broker (`JsPyPubsub`) -/

/-- `JsPyPubsub.subscribe(topic, func)` in direct form (`func`
given): store the callback (overwriting any previous one) and return
Python `True`. -/
def subscribeDirect (callbacks : List (String × PyFunc)) (topic : String)
    (func : PyFunc) : Bool × List (String × PyFunc) :=
  (true, setA callbacks topic func)

/-- The closure `inner` returned by `JsPyPubsub.subscribe(topic)` in
decorator form: it stores the decorated function as the topic's callback
and falls off the end, so it returns Python `None` — the value the
decorated name is rebound to. -/
def subscribeInner (callbacks : List (String × PyFunc)) (topic : String)
    (targetFunc : PyFunc) : Option PyFunc × List (String × PyFunc) :=
  (none, setA callbacks topic targetFunc)

/-- The fan-out targets chosen by `JsPyPubsub._pub_from_js` for a
`pub_call` from `socketId`: the topic's whole subscription set when the
envelope's `exception` field `is False` (Python identity with the
`False` singleton), the set minus the originator for any other value. -/
def pubFanoutTargets (subs : List Nat) (socketId : Nat) (suppress : JVal) :
    List Nat :=
  if suppress = .bool false then subs else subs.filter (· ≠ socketId)

/-- `JsPyPubsub._pub_from_js` restricted to its fan-out decision: `none`
when the topic has no subscription set (no `pub` envelope is sent at
all), otherwise the chosen target list. -/
def pubFromJsTargets (manager : List (String × List Nat)) (topic : String)
    (socketId : Nat) (suppress : JVal) : Option (List Nat) :=
  match getA manager topic with
  | none => none
  | some subs => some (pubFanoutTargets subs socketId suppress)

/-- Remove `socketId` from one subscription set
(`_topic_manager[topic].discard(socket_id)`). -/
def discardSocket (socketId : Nat) (subs : List Nat) : List Nat :=
  subs.filter (· ≠ socketId)

/-- `JsPyPubsub._socket_event` on a disconnect, with CPython's actual
iteration semantics: the `for topic in _topic_manager` loop discards the
socket id topic by topic, but `del _topic_manager[topic]` changes the
dict's size, so the next step of the iterator raises `RuntimeError` and
the remaining topics are left untouched (the exception is swallowed by
`on_disconnect`'s bare `except`). -/
def socketEventDisconnect (socketId : Nat) :
    List (String × List Nat) → List (String × List Nat)
  | [] => []
  | (topic, subs) :: rest =>
      let subs' := discardSocket socketId subs
      if subs'.isEmpty then rest
      else (topic, subs') :: socketEventDisconnect socketId rest

/-- Modelled from the spec: the disconnect cleanup `_socket_event` is
documented to perform — "removes that socket id from every topic's
subscription set, deleting any set that becomes empty" (the loop body's
evident intent, free of the iterator-invalidation slip). -/
def socketEventDisconnectSpec (socketId : Nat)
    (manager : List (String × List Nat)) : List (String × List Nat) :=
  (manager.map fun p => (p.1, discardSocket socketId p.2)).filter
    fun p => ¬ p.2.isEmpty

/-! ## Connection registry (`JsPyTextSocket`)

The socket pool is the insertion-ordered list of connected socket ids
(the dict's values, WebSocket handles, play no role in the claims).
`_append_socket`'s `while` loop is given explicit fuel; one full lap of
the id space never needs more than `SERIAL_MAX` probes, and a run out of
fuel models the loop spinning forever on a saturated pool. -/

/-- `JsPyTextSocket.SERIAL_MAX = 0xFFFFFFFF`. -/
def SERIAL_MAX : Nat := 0xFFFFFFFF

/-- One increment of `_socket_serial`: `+= 1`, then wrap to 1 when the
counter passed `SERIAL_MAX`. -/
def nextSerial (s : Nat) : Nat := if s + 1 > SERIAL_MAX then 1 else s + 1

/-- The `while cls._socket_serial in cls._socket_pool` probe loop of
`_append_socket`, starting from candidate `s`. -/
def probeSerial : Nat → Nat → List Nat → Option Nat
  | 0, _, _ => none
  | fuel + 1, s, pool => if s ∈ pool then probeSerial fuel (nextSerial s) pool else some s

/-- `JsPyTextSocket._append_socket`: increment (with wraparound), skip
ids currently in the pool, then register and return the id found. -/
def appendSocket (serial : Nat) (pool : List Nat) : Option (Nat × List Nat) :=
  match probeSerial (SERIAL_MAX + 1) (nextSerial serial) pool with
  | some s => some (s, pool ++ [s])
  | none => none

/-- `JsPyTextSocket._delete_socket`: drop the id from the pool if present. -/
def deleteSocket (pool : List Nat) (socketId : Nat) : List Nat :=
  pool.filter (· ≠ socketId)

theorem nextSerial_pos (s : Nat) : 1 ≤ nextSerial s := by
  unfold nextSerial; split <;> omega

theorem nextSerial_le (s : Nat) : nextSerial s ≤ SERIAL_MAX := by
  unfold nextSerial
  split
  · have : 0 < SERIAL_MAX := by norm_num [SERIAL_MAX]
    omega
  · omega

theorem probeSerial_not_mem (fuel s : Nat) (pool : List Nat) (r : Nat)
    (h : probeSerial fuel s pool = some r) : r ∉ pool := by
  induction fuel generalizing s with
  | zero => simp [probeSerial] at h
  | succ fuel ih =>
      by_cases hm : s ∈ pool
      · exact ih (nextSerial s) (by simpa [probeSerial, hm] using h)
      · have : s = r := by simpa [probeSerial, hm] using h
        subst this; exact hm

theorem probeSerial_range (fuel s : Nat) (pool : List Nat) (r : Nat)
    (hs1 : 1 ≤ s) (hs2 : s ≤ SERIAL_MAX)
    (h : probeSerial fuel s pool = some r) : 1 ≤ r ∧ r ≤ SERIAL_MAX := by
  induction fuel generalizing s with
  | zero => simp [probeSerial] at h
  | succ fuel ih =>
      by_cases hm : s ∈ pool
      · exact ih (nextSerial s) (nextSerial_pos s) (nextSerial_le s)
          (by simpa [probeSerial, hm] using h)
      · have : s = r := by simpa [probeSerial, hm] using h
        subst this; exact ⟨hs1, hs2⟩

theorem appendSocket_spec (serial : Nat) (pool : List Nat) (s : Nat)
    (pool' : List Nat) (h : appendSocket serial pool = some (s, pool')) :
    1 ≤ s ∧ s ≤ SERIAL_MAX ∧ s ∉ pool ∧ pool' = pool ++ [s] := by
  unfold appendSocket at h
  rcases hp : probeSerial (SERIAL_MAX + 1) (nextSerial serial) pool with _ | r
  · rw [hp] at h; exact absurd h (by simp)
  · rw [hp] at h
    simp only [Option.some.injEq, Prod.mk.injEq] at h
    obtain ⟨hr, hpl⟩ := h
    subst hr
    subst hpl
    obtain ⟨h1, h2⟩ := probeSerial_range _ _ _ _ (nextSerial_pos serial)
      (nextSerial_le serial) hp
    exact ⟨h1, h2, probeSerial_not_mem _ _ _ _ hp, rfl⟩

/-- Registry state: the id counter, the pool of connected ids (insertion
order), the `_connected` count and the `_connection_limit`. -/
structure RegState where
  serial : Nat
  pool : List Nat
  connected : Nat
  limit : Nat
  deriving DecidableEq, Repr

/-- A lifecycle event seen by the registry. -/
inductive RegEvent where
  | connect
  | disconnect (socketId : Nat)
  deriving DecidableEq, Repr

/-- One registry transition.  `connect` runs `_append_socket` (reporting
the assigned id); `disconnect` runs `_delete_socket` and decrements
`_connected`.  A connect finding no free id (saturated pool) leaves the
state unchanged and assigns nothing — in the source that loop never
returns. -/
def regStep (st : RegState) : RegEvent → RegState × Option Nat
  | .connect =>
      match appendSocket st.serial st.pool with
      | some (s, pool') =>
          ({st with serial := s, pool := pool', connected := st.connected + 1},
            some s)
      | none => (st, none)
  | .disconnect socketId =>
      ({st with pool := deleteSocket st.pool socketId, connected := st.connected - 1},
        none)

/-- Run the registry over a list of events. -/
def regRun (st : RegState) : List RegEvent → RegState
  | [] => st
  | e :: es => regRun (regStep st e).1 es

theorem regRun_mem_pool (st : RegState) (es : List RegEvent) (s : Nat)
    (hmem : s ∈ st.pool) (hnd : ∀ e ∈ es, e ≠ RegEvent.disconnect s) :
    s ∈ (regRun st es).pool := by
  induction es generalizing st with
  | nil => exact hmem
  | cons e es ih =>
      have hrest : ∀ e' ∈ es, e' ≠ RegEvent.disconnect s :=
        fun e' he' => hnd e' (List.mem_cons_of_mem _ he')
      cases e with
      | connect =>
          refine ih (regStep st .connect).1 ?_ hrest
          unfold regStep
          rcases ha : appendSocket st.serial st.pool with _ | p
          · simpa [ha]
          · obtain ⟨t, pool'⟩ := p
            have := (appendSocket_spec st.serial st.pool t pool' ha).2.2.2
            simp [ha, this, hmem]
      | disconnect j =>
          have hj : j ≠ s := by
            intro hEq
            exact (hnd _ (List.mem_cons_self _ _)) (by rw [hEq])
          refine ih (regStep st (.disconnect j)).1 ?_ hrest
          simp [regStep, deleteSocket]
          exact ⟨hmem, fun h => hj h.symm⟩

/-- The `"system"`/`"connect"` envelope sent by `on_connect` (its `id`
field is the literal 0; `data` is a socket id or Python `None`;
`exception` a string or `None`). -/
structure SysEnvelope where
  protocol : String
  key : String
  envId : Nat
  data : Option Nat
  excpt : Option String
  deriving DecidableEq, Repr

/-- The rejection text of `on_connect`. -/
def connectionRefusedMsg : String :=
  "Connection refused due to connection limit @python"

/-- `JsPyTextSocket.on_connect`: increment `_connected`, accept, assign
an id via `_append_socket`; then either send the rejection envelope and
close (positive limit exceeded by the new count) or send the envelope
carrying the assigned id.  Returns the post-handler state, the envelope
sent, and whether `ws.close()` was called. -/
def onConnect (st : RegState) : Option (RegState × SysEnvelope × Bool) :=
  match appendSocket st.serial st.pool with
  | none => none
  | some (sid, pool') =>
      if 0 < st.limit ∧ st.limit < st.connected + 1 then
        some (⟨sid, pool', st.connected + 1, st.limit⟩,
          ⟨"system", "connect", 0, none, some connectionRefusedMsg⟩, true)
      else
        some (⟨sid, pool', st.connected + 1, st.limit⟩,
          ⟨"system", "connect", 0, some sid, none⟩, false)

/-! ## The `call(key, timeout, target)` closure (`JsPyFunction.call.inner`) -/

/-- The `target` argument of `call` / `call_nowait`: Python `None`, a
single int, or a list/tuple/set of ints. -/
inductive TargetSpec where
  | all
  | one (socketId : Nat)
  | many (socketIds : List Nat)
  deriving DecidableEq, Repr

/-- Target resolution at the top of `call.inner`: `None` means every
currently connected socket; an int is kept only if connected; a
collection is filtered to the connected ids. -/
def resolveTargets (target : TargetSpec) (connected : List Nat) : List Nat :=
  match target with
  | .all => connected
  | .one t => if t ∈ connected then [t] else []
  | .many ts => ts.filter (· ∈ connected)

/-- A `function_return` envelope as consumed by `_return_from_js`. -/
structure ReplyMsg where
  socketId : Nat
  envId : JVal
  data : JVal
  excpt : JVal
  deriving DecidableEq, Repr

/-- One entry of the dict `call.inner` returns: the remote return value,
or the `JsPyError` built from the reply's `exception` string. -/
inductive CallOutcome where
  | value (data : JVal)
  | error (excpt : JVal)
  deriving DecidableEq, Repr

/-- The socket id under which a resolved future is keyed in the result
dict (`value[0]`, or `e.get_socket_id()` for the exception branch). -/
def futureKey : FutureVal → Nat
  | .result sid _ => sid
  | .errval sid _ => sid

/-- The dict value a resolved future contributes (`value[1]`, or the
`JsPyError` instance). -/
def futureOutcome : FutureVal → CallOutcome
  | .result _ d => .value d
  | .errval _ e => .error e

/-- The `for ft in done` loop of `call.inner`: fold the resolved slots
into the result dict, skipping still-pending ones. -/
def collectResult (slots : List (Option FutureVal)) : List (Nat × CallOutcome) :=
  slots.foldl (fun acc s =>
    match s with
    | none => acc
    | some v => setA acc (futureKey v) (futureOutcome v)) []

/-- Deliver a batch of inbound `function_return` envelopes through
`_return_from_js`, in arrival order. -/
def applyFunctionReplies (memory : List (Int × List (Option FutureVal)))
    (replies : List ReplyMsg) : List (Int × List (Option FutureVal)) :=
  replies.foldl (fun m r => returnFromJs m r.socketId r.envId r.data r.excpt) memory

/-- `JsPyFunction.call.inner` as a whole: resolve the targets
(short-circuiting to an empty dict), create one pending future per
target under the fresh call id, let the replies that arrive before the
wait completes resolve slots via `_return_from_js`, then harvest the
resolved slots and delete the correlation entry.  Returns the result
dict and the final `_call_memory`. -/
def callFlow (memory : List (Int × List (Option FutureVal))) (callId : Int)
    (connected : List Nat) (target : TargetSpec) (replies : List ReplyMsg) :
    List (Nat × CallOutcome) × List (Int × List (Option FutureVal)) :=
  let targets := resolveTargets target connected
  if targets.isEmpty then ([], memory)
  else
    let mem1 := setA memory callId (targets.map fun _ => none)
    let mem2 := applyFunctionReplies mem1 replies
    let slots := (getA mem2 callId).getD []
    (collectResult slots, eraseA mem2 callId)

/-- The outcome `call.inner` records for one reply envelope. -/
def replyOutcome (r : ReplyMsg) : CallOutcome :=
  if r.excpt = .null then .value r.data else .error r.excpt

theorem futureKey_functionReplyVal (sid : Nat) (d e : JVal) :
    futureKey (functionReplyVal sid d e) = sid := by
  by_cases h : e = JVal.null <;> simp [functionReplyVal, h, futureKey]

theorem futureOutcome_functionReplyVal (r : ReplyMsg) :
    futureOutcome (functionReplyVal r.socketId r.data r.excpt) = replyOutcome r := by
  by_cases h : r.excpt = JVal.null <;>
    simp [functionReplyVal, h, futureOutcome, replyOutcome]

theorem setA_append_self {α β : Type} [DecidableEq α]
    (l : List (α × β)) (k : α) (s v : β) (h : k ∉ keysA l) :
    setA (l ++ [(k, s)]) k v = l ++ [(k, v)] := by
  induction l with
  | nil => simp [setA]
  | cons p rest ih =>
      obtain ⟨k0, w⟩ := p
      simp [keysA] at h
      simp [setA, h.1, ih (by simpa [keysA] using h.2)]

theorem applyFunctionReplies_pending
    (memory : List (Int × List (Option FutureVal))) (callId : Int)
    (replies : List ReplyMsg) (xs : List FutureVal) (k : Nat)
    (hfresh : callId ∉ keysA memory)
    (hall : ∀ r ∈ replies, pyIntValue r.envId = some callId)
    (hlen : replies.length ≤ k) :
    applyFunctionReplies
        (memory ++ [(callId, xs.map some ++ List.replicate k none)]) replies =
      memory ++ [(callId,
        (xs ++ replies.map fun r => functionReplyVal r.socketId r.data r.excpt).map some
          ++ List.replicate (k - replies.length) none)] := by
  induction replies generalizing xs k with
  | nil => simp [applyFunctionReplies]
  | cons r rest ih =>
      obtain ⟨k', rfl⟩ : ∃ k', k = k' + 1 := by
        rcases k with _ | k'
        · exact absurd hlen (by simp)
        · exact ⟨k', rfl⟩
      have hr := hall r (List.mem_cons_self _ _)
      have hget : getA (memory ++ [(callId, xs.map some ++ List.replicate (k' + 1) none)])
          callId = some (xs.map some ++ List.replicate (k' + 1) none) := by
        rw [getA_append_right _ _ _ hfresh]; simp [getA]
      have hstep : returnFromJs
          (memory ++ [(callId, xs.map some ++ List.replicate (k' + 1) none)])
          r.socketId r.envId r.data r.excpt =
          memory ++ [(callId,
            (xs ++ [functionReplyVal r.socketId r.data r.excpt]).map some
              ++ List.replicate k' none)] := by
        rw [returnFromJs_mem _ _ _ _ _ _ _ hr hget]
        have : List.replicate (k' + 1) (none : Option FutureVal) =
            none :: List.replicate k' none := by simp [List.replicate]
        rw [this, resolveFirst_split, setA_append_self _ _ _ _ hfresh]
      have hrest : ∀ r' ∈ rest, pyIntValue r'.envId = some callId :=
        fun r' h' => hall r' (List.mem_cons_of_mem _ h')
      calc applyFunctionReplies
            (memory ++ [(callId, xs.map some ++ List.replicate (k' + 1) none)])
            (r :: rest)
          = applyFunctionReplies
              (memory ++ [(callId,
                (xs ++ [functionReplyVal r.socketId r.data r.excpt]).map some
                  ++ List.replicate k' none)]) rest := by
            simp only [applyFunctionReplies, List.foldl_cons, hstep]
        _ = _ := by
            rw [ih _ _ hrest (by simp at hlen; omega)]
            simp [List.append_assoc, Nat.succ_sub_succ]

theorem collectResult_go (vals : List FutureVal) (acc : List (Nat × CallOutcome))
    (hnd : (vals.map futureKey).Nodup)
    (hdisj : ∀ v ∈ vals, futureKey v ∉ keysA acc) :
    List.foldl (fun acc s =>
        match s with
        | none => acc
        | some v => setA acc (futureKey v) (futureOutcome v))
      acc (vals.map some) =
      acc ++ vals.map fun v => (futureKey v, futureOutcome v) := by
  induction vals generalizing acc with
  | nil => simp
  | cons v vals ih =>
      rw [List.map_cons, List.nodup_cons] at hnd
      have hfresh : futureKey v ∉ keysA acc := hdisj v (List.mem_cons_self _ _)
      have hstep : setA acc (futureKey v) (futureOutcome v) =
          acc ++ [(futureKey v, futureOutcome v)] :=
        setA_append_of_not_mem _ _ _ hfresh
      simp only [List.map_cons, List.foldl_cons, hstep]
      rw [ih (acc ++ [(futureKey v, futureOutcome v)]) hnd.2 ?_]
      · simp
      · intro w hw
        have hne : futureKey w ≠ futureKey v := by
          intro hEq
          exact hnd.1 (hEq ▸ List.mem_map_of_mem futureKey hw)
        have hnacc : futureKey w ∉ keysA acc := hdisj w (List.mem_cons_of_mem _ hw)
        simp only [keysA, List.map_append, List.mem_append, List.map_cons,
          List.map_nil, List.mem_singleton]
        rintro (h1 | h1)
        · exact hnacc (by simpa [keysA] using h1)
        · exact hne h1

theorem collectResult_none (acc : List (Nat × CallOutcome)) (k : Nat) :
    List.foldl (fun acc s =>
        match s with
        | none => acc
        | some v => setA acc (futureKey v) (futureOutcome v))
      acc (List.replicate k (none : Option FutureVal)) = acc := by
  induction k with
  | zero => rfl
  | succ k ih => simpa [List.replicate] using ih

theorem collectResult_resolved (vals : List FutureVal) (k : Nat)
    (hnd : (vals.map futureKey).Nodup) :
    collectResult (vals.map some ++ List.replicate k none) =
      vals.map fun v => (futureKey v, futureOutcome v) := by
  unfold collectResult
  rw [List.foldl_append, collectResult_go vals [] hnd (by simp [keysA]),
    collectResult_none]
  simp

/-! ## The `_call_from_js` scheduling machine (`JsPyFunction._call_from_js`)

Each inbound `function`/`function_call` envelope for one exposed key
spawns a cooperative task running `_call_from_js`.  A task's progress
through the handler is a phase; the single-threaded event loop is an
arbitrary schedule of task ids.  One step of an `executing` task is its
completion — the code from `_exposed_function[key][2] = False` through
the waiter hand-off runs with no `await` in between, hence atomically. -/

/-- Where one `_call_from_js` task stands. -/
inductive Phase where
  | arrived
  | parked
  | ready
  | executing
  | done
  deriving DecidableEq, Repr

/-- The per-key state `_call_from_js` manipulates: the record's
`exclusive` queue presence, its running flag, the FIFO of parked tasks
(`queue.Queue` of futures) and all tasks' phases (task ids are list
indices). -/
structure ExecState where
  exclusive : Bool
  running : Bool
  waitQ : List Nat
  phases : List Phase
  deriving DecidableEq, Repr

/-- Observable events a step can emit. -/
inductive ExecEvent where
  | parkedAt (t : Nat)
  | resumedAt (t : Nat)
  deriving DecidableEq, Repr

/-- One scheduler step of task `t`.  `arrived`: run the head of
`_call_from_js` — park when the record is exclusive and running,
otherwise set the running flag and start the body.  `ready`: the parked
task resumed after its future was resolved and sets the running flag.
`executing`: the body finishes — flag to `False`, then, when the record
is exclusive and the wait list non-empty, pop the next waiter, resolve
its future and set the flag back to `True`, all in the same step. -/
def taskStep (st : ExecState) (t : Nat) : Option (ExecState × List ExecEvent) :=
  match st.phases[t]? with
  | some .arrived =>
      if st.exclusive && st.running then
        some ({st with phases := st.phases.set t .parked, waitQ := st.waitQ ++ [t]},
          [.parkedAt t])
      else
        some ({st with phases := st.phases.set t .executing, running := true}, [])
  | some .ready =>
      some ({st with phases := st.phases.set t .executing, running := true}, [])
  | some .executing =>
      match st.waitQ with
      | [] => some ({st with phases := st.phases.set t .done, running := false}, [])
      | w :: rest =>
          if st.exclusive then
            some ({st with phases := (st.phases.set t .done).set w .ready, waitQ := rest, running := true},
              [.resumedAt w])
          else
            some ({st with phases := st.phases.set t .done, running := false}, [])
  | _ => none

/-- Run a schedule, skipping steps that are not enabled, and accumulate
the emitted events. -/
def runSchedule (st : ExecState) : List Nat → ExecState × List ExecEvent
  | [] => (st, [])
  | t :: ts =>
      match taskStep st t with
      | none => runSchedule st ts
      | some (st', evs) =>
          let (stF, evsF) := runSchedule st' ts
          (stF, evs ++ evsF)

/-- The initial state: `n` envelopes have arrived for a key freshly
exposed with the given exclusivity; nothing runs, nobody waits. -/
def execInit (exclusive : Bool) (n : Nat) : ExecState :=
  ⟨exclusive, false, [], List.replicate n .arrived⟩

/-- A task holding the function body: its phase is `executing` or
`ready` (resolved but not yet resumed — the completer has already
re-set the running flag on its behalf). -/
def HoldsBody (st : ExecState) (t : Nat) : Prop :=
  st.phases[t]? = some .executing ∨ st.phases[t]? = some .ready

/-- The exclusivity invariant: at most one task holds the body, the
running flag is set exactly when one does, and every queued waiter is
parked, no task twice. -/
def ExclInv (st : ExecState) : Prop :=
  (∀ i j, HoldsBody st i → HoldsBody st j → i = j) ∧
  (st.running = true ↔ ∃ i, HoldsBody st i) ∧
  (∀ w ∈ st.waitQ, st.phases[w]? = some .parked) ∧
  st.waitQ.Nodup

theorem getElem?_replicate_ne {α : Type} (a b : α) (h : b ≠ a) (n i : Nat) :
    (List.replicate n a)[i]? ≠ some b := by
  intro hc
  exact h (List.eq_of_mem_replicate (List.getElem?_mem hc))

theorem execInit_not_holds (exclusive : Bool) (n i : Nat) :
    ¬ HoldsBody (execInit exclusive n) i := by
  rintro (h | h)
  · exact getElem?_replicate_ne Phase.arrived Phase.executing (by simp) n i h
  · exact getElem?_replicate_ne Phase.arrived Phase.ready (by simp) n i h

theorem execInit_inv (exclusive : Bool) (n : Nat) : ExclInv (execInit exclusive n) := by
  refine ⟨?_, ?_, ?_, ?_⟩
  · intro i j hi _
    exact absurd hi (execInit_not_holds exclusive n i)
  · constructor
    · intro h; exact absurd h (by simp [execInit])
    · rintro ⟨i, hi⟩
      exact absurd hi (execInit_not_holds exclusive n i)
  · intro w hw; exact absurd hw (by simp [execInit])
  · simp [execInit]

theorem getElem?_set_self_of_some {α : Type} (l : List α) (i : Nat) (a b : α)
    (h : l[i]? = some b) : (l.set i a)[i]? = some a :=
  List.getElem?_set_eq_of_lt a (List.getElem?_eq_some.mp h).1

theorem holdsBody_iff (st : ExecState) (i : Nat) :
    HoldsBody st i ↔
      (st.phases[i]? = some Phase.executing ∨ st.phases[i]? = some Phase.ready) :=
  Iff.rfl

theorem exclInv_park (st : ExecState) (t : Nat)
    (hinv : ExclInv st) (hrunb : st.running = true)
    (hp : st.phases[t]? = some Phase.arrived) :
    ExclInv ⟨st.exclusive, st.running, st.waitQ ++ [t], st.phases.set t Phase.parked⟩ := by
  obtain ⟨hmx, hrun, hwp, hnd⟩ := hinv
  have hnotholds : ¬ HoldsBody st t := by
    rintro (hh | hh) <;> rw [hp] at hh <;> exact absurd hh (by simp)
  have hset : ∀ i, i ≠ t → (st.phases.set t Phase.parked)[i]? = st.phases[i]? :=
    fun i hi => List.getElem?_set_ne fun hEq => hi hEq.symm
  have hsett : (st.phases.set t Phase.parked)[t]? = some Phase.parked :=
    getElem?_set_self_of_some _ _ _ _ hp
  have hholds : ∀ i,
      HoldsBody ⟨st.exclusive, st.running, st.waitQ ++ [t],
        st.phases.set t Phase.parked⟩ i ↔ i ≠ t ∧ HoldsBody st i := by
    intro i
    rw [holdsBody_iff, holdsBody_iff]
    by_cases hit : i = t
    · subst hit
      simp only [hsett]
      simp
    · simp only [hset i hit]
      simp [hit]
  refine ⟨?_, ?_, ?_, ?_⟩
  · intro i j hi hj
    exact hmx i j ((hholds i).mp hi).2 ((hholds j).mp hj).2
  · constructor
    · intro _
      obtain ⟨i, hi⟩ := hrun.mp hrunb
      exact ⟨i, (hholds i).mpr ⟨fun hEq => hnotholds (hEq ▸ hi), hi⟩⟩
    · intro _
      exact hrunb
  · intro w hw
    rcases List.mem_append.mp hw with hw | hw
    · have hwt : w ≠ t := by
        intro hEq
        have h2 := hwp w hw
        rw [hEq, hp] at h2
        exact absurd h2 (by simp)
      show (st.phases.set t Phase.parked)[w]? = some Phase.parked
      rw [hset w hwt]
      exact hwp w hw
    · have hwt : w = t := by simpa using hw
      subst hwt
      exact hsett
  · refine List.Nodup.append hnd (by simp) ?_
    intro a ha hb
    have hab : a = t := by simpa using hb
    subst hab
    have h2 := hwp a ha
    rw [hp] at h2
    exact absurd h2 (by simp)

theorem exclInv_start (st : ExecState) (t : Nat)
    (hinv : ExclInv st) (hrunb : st.running = false)
    (hp : st.phases[t]? = some Phase.arrived) :
    ExclInv ⟨st.exclusive, true, st.waitQ, st.phases.set t Phase.executing⟩ := by
  obtain ⟨hmx, hrun, hwp, hnd⟩ := hinv
  have hnone : ∀ i, ¬ HoldsBody st i := by
    intro i hi
    have h2 := hrun.mpr ⟨i, hi⟩
    rw [hrunb] at h2
    exact Bool.false_ne_true h2
  have hset : ∀ i, i ≠ t → (st.phases.set t Phase.executing)[i]? = st.phases[i]? :=
    fun i hi => List.getElem?_set_ne fun hEq => hi hEq.symm
  have hsett : (st.phases.set t Phase.executing)[t]? = some Phase.executing :=
    getElem?_set_self_of_some _ _ _ _ hp
  have hholds : ∀ i,
      HoldsBody ⟨st.exclusive, true, st.waitQ, st.phases.set t Phase.executing⟩ i ↔
        i = t := by
    intro i
    rw [holdsBody_iff]
    by_cases hit : i = t
    · subst hit
      simp [hsett]
    · simp only [hset i hit]
      constructor
      · intro hh
        exact absurd ((holdsBody_iff st i).mpr hh) (hnone i)
      · intro hh
        exact absurd hh hit
  refine ⟨?_, ?_, ?_, ?_⟩
  · intro i j hi hj
    rw [(hholds i).mp hi, (hholds j).mp hj]
  · exact ⟨fun _ => ⟨t, (hholds t).mpr rfl⟩, fun _ => rfl⟩
  · intro w hw
    have hwt : w ≠ t := by
      intro hEq
      have h2 := hwp w hw
      rw [hEq, hp] at h2
      exact absurd h2 (by simp)
    show (st.phases.set t Phase.executing)[w]? = some Phase.parked
    rw [hset w hwt]
    exact hwp w hw
  · exact hnd

theorem exclInv_resume (st : ExecState) (t : Nat)
    (hinv : ExclInv st)
    (hp : st.phases[t]? = some Phase.ready) :
    ExclInv ⟨st.exclusive, true, st.waitQ, st.phases.set t Phase.executing⟩ := by
  obtain ⟨hmx, hrun, hwp, hnd⟩ := hinv
  have hht : HoldsBody st t := Or.inr hp
  have hset : ∀ i, i ≠ t → (st.phases.set t Phase.executing)[i]? = st.phases[i]? :=
    fun i hi => List.getElem?_set_ne fun hEq => hi hEq.symm
  have hsett : (st.phases.set t Phase.executing)[t]? = some Phase.executing :=
    getElem?_set_self_of_some _ _ _ _ hp
  have hholds : ∀ i,
      HoldsBody ⟨st.exclusive, true, st.waitQ, st.phases.set t Phase.executing⟩ i ↔
        i = t := by
    intro i
    rw [holdsBody_iff]
    by_cases hit : i = t
    · subst hit
      simp [hsett]
    · simp only [hset i hit]
      constructor
      · intro hh
        exact hmx i t ((holdsBody_iff st i).mpr hh) hht
      · intro hh
        exact absurd hh hit
  refine ⟨?_, ?_, ?_, ?_⟩
  · intro i j hi hj
    rw [(hholds i).mp hi, (hholds j).mp hj]
  · exact ⟨fun _ => ⟨t, (hholds t).mpr rfl⟩, fun _ => rfl⟩
  · intro w hw
    have hwt : w ≠ t := by
      intro hEq
      have h2 := hwp w hw
      rw [hEq, hp] at h2
      exact absurd h2 (by simp)
    show (st.phases.set t Phase.executing)[w]? = some Phase.parked
    rw [hset w hwt]
    exact hwp w hw
  · exact hnd

theorem exclInv_complete_empty (st : ExecState) (t : Nat)
    (hinv : ExclInv st)
    (hp : st.phases[t]? = some Phase.executing) :
    ExclInv ⟨st.exclusive, false, [], st.phases.set t Phase.done⟩ := by
  obtain ⟨hmx, hrun, hwp, hnd⟩ := hinv
  have hht : HoldsBody st t := Or.inl hp
  have hset : ∀ i, i ≠ t → (st.phases.set t Phase.done)[i]? = st.phases[i]? :=
    fun i hi => List.getElem?_set_ne fun hEq => hi hEq.symm
  have hsett : (st.phases.set t Phase.done)[t]? = some Phase.done :=
    getElem?_set_self_of_some _ _ _ _ hp
  have hnone : ∀ i,
      ¬ HoldsBody ⟨st.exclusive, false, [], st.phases.set t Phase.done⟩ i := by
    intro i hi
    rw [holdsBody_iff] at hi
    by_cases hit : i = t
    · subst hit
      rcases hi with hh | hh <;> rw [hsett] at hh <;> exact absurd hh (by simp)
    · rw [hset i hit] at hi
      exact hit (hmx i t ((holdsBody_iff st i).mpr hi) hht)
  refine ⟨?_, ?_, ?_, ?_⟩
  · intro i j hi _
    exact absurd hi (hnone i)
  · constructor
    · intro hf
      exact absurd hf (by simp)
    · rintro ⟨i, hi⟩
      exact absurd hi (hnone i)
  · intro w hw
    exact absurd hw (by simp)
  · simp

theorem exclInv_complete_pop (st : ExecState) (t w : Nat) (rest : List Nat)
    (hinv : ExclInv st) (hq : st.waitQ = w :: rest)
    (hp : st.phases[t]? = some Phase.executing) :
    ExclInv ⟨st.exclusive, true, rest,
      (st.phases.set t Phase.done).set w Phase.ready⟩ := by
  obtain ⟨hmx, hrun, hwp, hnd⟩ := hinv
  have hht : HoldsBody st t := Or.inl hp
  have hwparked : st.phases[w]? = some Phase.parked := by
    refine hwp w ?_
    rw [hq]
    exact List.mem_cons_self _ _
  have hwt : w ≠ t := by
    intro hEq
    rw [hEq, hp] at hwparked
    exact absurd hwparked (by simp)
  have hsetw : ((st.phases.set t Phase.done).set w Phase.ready)[w]? =
      some Phase.ready := by
    refine getElem?_set_self_of_some _ _ _ Phase.parked ?_
    rw [List.getElem?_set_ne fun hEq => hwt hEq.symm]
    exact hwparked
  have hsett : ((st.phases.set t Phase.done).set w Phase.ready)[t]? =
      some Phase.done := by
    rw [List.getElem?_set_ne hwt]
    exact getElem?_set_self_of_some _ _ _ _ hp
  have hset : ∀ i, i ≠ t → i ≠ w →
      ((st.phases.set t Phase.done).set w Phase.ready)[i]? = st.phases[i]? := by
    intro i hit hiw
    rw [List.getElem?_set_ne fun hEq => hiw hEq.symm,
      List.getElem?_set_ne fun hEq => hit hEq.symm]
  have hndq : w ∉ rest ∧ rest.Nodup := by
    rw [hq] at hnd
    exact List.nodup_cons.mp hnd
  have hholds : ∀ i,
      HoldsBody ⟨st.exclusive, true, rest,
        (st.phases.set t Phase.done).set w Phase.ready⟩ i ↔ i = w := by
    intro i
    rw [holdsBody_iff]
    by_cases hiw : i = w
    · subst hiw
      simp [hsetw]
    · by_cases hit : i = t
      · subst hit
        simp only [hsett]
        constructor
        · rintro (hh | hh) <;> exact absurd hh (by simp)
        · intro hh
          exact absurd hh hiw
      · simp only [hset i hit hiw]
        constructor
        · intro hh
          exact absurd (hmx i t ((holdsBody_iff st i).mpr hh) hht) hit
        · intro hh
          exact absurd hh hiw
  refine ⟨?_, ?_, ?_, ?_⟩
  · intro i j hi hj
    rw [(hholds i).mp hi, (hholds j).mp hj]
  · exact ⟨fun _ => ⟨w, (hholds w).mpr rfl⟩, fun _ => rfl⟩
  · intro v hv
    have hvq : v ∈ st.waitQ := by
      rw [hq]
      exact List.mem_cons_of_mem _ hv
    have hvt : v ≠ t := by
      intro hEq
      have h2 := hwp v hvq
      rw [hEq, hp] at h2
      exact absurd h2 (by simp)
    have hvw : v ≠ w := fun hEq => hndq.1 (hEq ▸ hv)
    show ((st.phases.set t Phase.done).set w Phase.ready)[v]? = some Phase.parked
    rw [hset v hvt hvw]
    exact hwp v hvq
  · exact hndq.2

theorem taskStep_inv (st st' : ExecState) (t : Nat) (evs : List ExecEvent)
    (hexcl : st.exclusive = true) (hinv : ExclInv st)
    (h : taskStep st t = some (st', evs)) : ExclInv st' := by
  unfold taskStep at h
  rcases hp : st.phases[t]? with _ | ph
  · rw [hp] at h
    exact absurd h (by simp)
  rw [hp] at h
  cases ph with
  | parked => exact absurd h (by simp)
  | done => exact absurd h (by simp)
  | arrived =>
      cases hrb : st.running with
      | false =>
          rw [hexcl, hrb] at h
          obtain ⟨h1, h2⟩ := Prod.mk.inj (Option.some.inj h)
          subst h1
          have hgoal := exclInv_start st t hinv hrb hp
          rw [hexcl] at hgoal
          exact hgoal
      | true =>
          rw [hexcl, hrb] at h
          obtain ⟨h1, h2⟩ := Prod.mk.inj (Option.some.inj h)
          subst h1
          have hgoal := exclInv_park st t hinv hrb hp
          rw [hexcl, hrb] at hgoal
          exact hgoal
  | ready =>
      obtain ⟨h1, h2⟩ := Prod.mk.inj (Option.some.inj h)
      subst h1
      exact exclInv_resume st t hinv hp
  | executing =>
      rcases hq : st.waitQ with _ | ⟨w, rest⟩
      · rw [hq] at h
        obtain ⟨h1, h2⟩ := Prod.mk.inj (Option.some.inj h)
        subst h1
        exact exclInv_complete_empty st t hinv hp
      · rw [hq, hexcl] at h
        obtain ⟨h1, h2⟩ := Prod.mk.inj (Option.some.inj h)
        subst h1
        have hgoal := exclInv_complete_pop st t w rest hinv hq hp
        rw [hexcl] at hgoal
        exact hgoal

theorem taskStep_exclusive (st st' : ExecState) (t : Nat) (evs : List ExecEvent)
    (h : taskStep st t = some (st', evs)) : st'.exclusive = st.exclusive := by
  unfold taskStep at h
  rcases hp : st.phases[t]? with _ | ph
  · rw [hp] at h
    exact absurd h (by simp)
  rw [hp] at h
  cases ph with
  | parked => exact absurd h (by simp)
  | done => exact absurd h (by simp)
  | arrived =>
      cases hc : st.exclusive && st.running <;> rw [hc] at h <;>
        obtain ⟨h1, h2⟩ := Prod.mk.inj (Option.some.inj h) <;> subst h1 <;> rfl
  | ready =>
      obtain ⟨h1, h2⟩ := Prod.mk.inj (Option.some.inj h)
      subst h1
      rfl
  | executing =>
      rcases hq : st.waitQ with _ | ⟨w, rest⟩ <;> rw [hq] at h
      · obtain ⟨h1, h2⟩ := Prod.mk.inj (Option.some.inj h)
        subst h1
        rfl
      · cases he : st.exclusive <;> rw [he] at h <;>
          obtain ⟨h1, h2⟩ := Prod.mk.inj (Option.some.inj h) <;> subst h1 <;> rfl

theorem runSchedule_cons_none (st : ExecState) (t : Nat) (ts : List Nat)
    (hs : taskStep st t = none) :
    runSchedule st (t :: ts) = runSchedule st ts := by
  conv_lhs => rw [runSchedule]
  rw [hs]

theorem runSchedule_cons_some (st st1 : ExecState) (t : Nat) (ts : List Nat)
    (evs1 : List ExecEvent) (hs : taskStep st t = some (st1, evs1)) :
    runSchedule st (t :: ts) =
      ((runSchedule st1 ts).1, evs1 ++ (runSchedule st1 ts).2) := by
  conv_lhs => rw [runSchedule]
  rw [hs]

theorem runSchedule_inv (st : ExecState) (sched : List Nat)
    (hexcl : st.exclusive = true) (hinv : ExclInv st) :
    ExclInv (runSchedule st sched).1 ∧ (runSchedule st sched).1.exclusive = true := by
  induction sched generalizing st with
  | nil => exact ⟨hinv, hexcl⟩
  | cons t ts ih =>
      rcases hs : taskStep st t with _ | p
      · rw [runSchedule_cons_none st t ts hs]
        exact ih st hexcl hinv
      · obtain ⟨st1, evs1⟩ := p
        have he1 : st1.exclusive = true :=
          (taskStep_exclusive st st1 t evs1 hs).trans hexcl
        have hi1 : ExclInv st1 := taskStep_inv st st1 t evs1 hexcl hinv hs
        rw [runSchedule_cons_some st st1 t ts evs1 hs]
        exact ih st1 he1 hi1

/-- The tasks parked (appended to the wait list) during a trace, in
order. -/
def parkedSeq (evs : List ExecEvent) : List Nat :=
  evs.filterMap fun e => match e with
    | .parkedAt t => some t
    | _ => none

/-- The waiters resumed (popped and resolved) during a trace, in order. -/
def resumedSeq (evs : List ExecEvent) : List Nat :=
  evs.filterMap fun e => match e with
    | .resumedAt t => some t
    | _ => none

theorem taskStep_queue (st st' : ExecState) (t : Nat) (evs : List ExecEvent)
    (h : taskStep st t = some (st', evs)) :
    st.waitQ ++ parkedSeq evs = resumedSeq evs ++ st'.waitQ := by
  unfold taskStep at h
  rcases hp : st.phases[t]? with _ | ph
  · rw [hp] at h
    exact absurd h (by simp)
  rw [hp] at h
  cases ph with
  | parked => exact absurd h (by simp)
  | done => exact absurd h (by simp)
  | arrived =>
      cases hc : st.exclusive && st.running <;> rw [hc] at h <;>
        obtain ⟨h1, h2⟩ := Prod.mk.inj (Option.some.inj h) <;>
        subst h1 <;> subst h2 <;> simp [parkedSeq, resumedSeq]
  | ready =>
      obtain ⟨h1, h2⟩ := Prod.mk.inj (Option.some.inj h)
      subst h1
      subst h2
      simp [parkedSeq, resumedSeq]
  | executing =>
      rcases hq : st.waitQ with _ | ⟨w, rest⟩ <;> rw [hq] at h
      · obtain ⟨h1, h2⟩ := Prod.mk.inj (Option.some.inj h)
        subst h1
        subst h2
        simp [parkedSeq, resumedSeq, hq]
      · cases he : st.exclusive <;> rw [he] at h <;>
          obtain ⟨h1, h2⟩ := Prod.mk.inj (Option.some.inj h) <;>
          subst h1 <;> subst h2 <;> simp [parkedSeq, resumedSeq, hq]

theorem runSchedule_queue (st : ExecState) (sched : List Nat) :
    st.waitQ ++ parkedSeq (runSchedule st sched).2 =
      resumedSeq (runSchedule st sched).2 ++ (runSchedule st sched).1.waitQ := by
  induction sched generalizing st with
  | nil => simp [runSchedule, parkedSeq, resumedSeq]
  | cons t ts ih =>
      rcases hs : taskStep st t with _ | p
      · rw [runSchedule_cons_none st t ts hs]
        exact ih st
      · obtain ⟨st1, evs1⟩ := p
        rw [runSchedule_cons_some st st1 t ts evs1 hs]
        have hstep := taskStep_queue st st1 t evs1 hs
        have hih := ih st1
        simp only [parkedSeq, resumedSeq, List.filterMap_append] at hstep hih ⊢
        calc st.waitQ ++ ((parkedSeq evs1) ++ parkedSeq (runSchedule st1 ts).2)
            = (st.waitQ ++ parkedSeq evs1) ++ parkedSeq (runSchedule st1 ts).2 := by
              simp [parkedSeq, List.append_assoc]
          _ = (resumedSeq evs1 ++ st1.waitQ) ++ parkedSeq (runSchedule st1 ts).2 := by
              simp only [parkedSeq, resumedSeq] at hstep ⊢
              rw [hstep]
          _ = resumedSeq evs1 ++ (st1.waitQ ++ parkedSeq (runSchedule st1 ts).2) := by
              simp [List.append_assoc]
          _ = resumedSeq evs1 ++ (resumedSeq (runSchedule st1 ts).2 ++
                (runSchedule st1 ts).1.waitQ) := by
              simp only [parkedSeq, resumedSeq] at hih ⊢
              rw [hih]
          _ = (resumedSeq evs1 ++ resumedSeq (runSchedule st1 ts).2) ++
                (runSchedule st1 ts).1.waitQ := by
              simp [List.append_assoc]

theorem queueReturn_mem (memory : List (Int × List (Option QueueAckVal)))
    (socketId : Nat) (envId excpt : JVal) (n : Int)
    (slots : List (Option QueueAckVal))
    (hid : pyIntValue envId = some n) (h : getA memory n = some slots) :
    queueReturn memory socketId envId excpt =
      setA memory n (resolveFirst (queueReplyVal socketId excpt) slots) := by
  simp [queueReturn, hid, h]

theorem queueReturn_all_done (memory : List (Int × List (Option QueueAckVal)))
    (socketId : Nat) (envId excpt : JVal) (n : Int)
    (slots : List (Option QueueAckVal))
    (hid : pyIntValue envId = some n) (h : getA memory n = some slots)
    (hdone : ∀ s ∈ slots, s ≠ none) :
    queueReturn memory socketId envId excpt = memory := by
  rw [queueReturn_mem memory socketId envId excpt n slots hid h,
      resolveFirst_all_done _ _ hdone, setA_of_getA_self _ _ _ h]

theorem returnFromJs_not_int (memory : List (Int × List (Option FutureVal)))
    (socketId : Nat) (envId data excpt : JVal) (hid : pyIntValue envId = none) :
    returnFromJs memory socketId envId data excpt = memory := by
  simp [returnFromJs, hid]

theorem queueReturn_not_int (memory : List (Int × List (Option QueueAckVal)))
    (socketId : Nat) (envId excpt : JVal) (hid : pyIntValue envId = none) :
    queueReturn memory socketId envId excpt = memory := by
  simp [queueReturn, hid]

/-! ## Claim theorems -/

/-- C4: the claim says a disconnect removes the socket id from every
topic's subscription set.  The code deletes a dict key inside
`for topic in _topic_manager`, so CPython raises `RuntimeError` at the
next iterator step and the remaining topics keep the dead socket id:
with topics `a` and `b` both subscribed only by socket 1, the disconnect
of socket 1 empties and deletes `a`, then aborts, leaving `b ↦ {1}` —
while the documented cleanup would leave no trace of socket 1. -/
theorem socketEventDisconnect_aborts_on_delete :
    socketEventDisconnect 1 [("a", [1]), ("b", [1])] = [("b", [1])] ∧
    getA (socketEventDisconnect 1 [("a", [1]), ("b", [1])]) "b" = some [1] ∧
    socketEventDisconnectSpec 1 [("a", [1]), ("b", [1])] = [] := by
  refine ⟨rfl, rfl, ?_⟩
  simp [socketEventDisconnectSpec, discardSocket]

/-- C10: `subscribe(topic)` used as a decorator registers the decorated
function as the topic's single callback but the decorator returns
`None`, so the decorated name is rebound to `None`, not to the
function. -/
theorem subscribe_decorator_rebinds_to_none
    (callbacks : List (String × PyFunc)) (topic : String) (f : PyFunc) :
    (subscribeInner callbacks topic f).1 = none ∧
    getA (subscribeInner callbacks topic f).2 topic = some f :=
  ⟨rfl, getA_setA_self callbacks topic f⟩

/-- C7: `expose` returns false exactly when the key is present with its
running flag set (and then the table is untouched); otherwise it
overwrites the entry with the function, its coroutine flag, a cleared
running flag and a wait list exactly when `exclusive` is set, returning
true. -/
theorem expose_spec (tbl : List (String × FunctionRecord)) (key : String)
    (fn : PyFunc) (exclusive : Bool) :
    ((expose tbl key fn exclusive).1 = false ↔
      ∃ r, getA tbl key = some r ∧ r.isRunning = true) ∧
    ((expose tbl key fn exclusive).1 = false →
      (expose tbl key fn exclusive).2 = tbl) ∧
    ((expose tbl key fn exclusive).1 = true →
      (expose tbl key fn exclusive).2 =
        setA tbl key ⟨fn, fn.isCoroutineFn, false,
          if exclusive then some [] else none⟩) := by
  rcases hg : getA tbl key with _ | r
  · refine ⟨?_, ?_, ?_⟩
    · simp [expose, hg]
    · simp [expose, hg]
    · intro _
      simp [expose, hg]
  · cases hr : r.isRunning
    · refine ⟨?_, ?_, ?_⟩
      · simp [expose, hg, hr]
      · simp [expose, hg, hr]
      · intro _
        simp [expose, hg, hr]
    · refine ⟨?_, ?_, ?_⟩
      · simp [expose, hg, hr]
      · intro _
        simp [expose, hg, hr]
      · simp [expose, hg, hr]

/-- C7 witness: a concrete running record rejects re-exposure and leaves
the table untouched; a concrete empty table accepts the exposure. -/
theorem expose_spec_witness :
    ((expose [("k", ⟨⟨1, false⟩, false, true, none⟩)] "k" ⟨2, true⟩ true).1 = false →
      (expose [("k", ⟨⟨1, false⟩, false, true, none⟩)] "k" ⟨2, true⟩ true).2 =
        [("k", ⟨⟨1, false⟩, false, true, none⟩)]) ∧
    ((expose [] "k" ⟨2, true⟩ true).1 = true →
      (expose [] "k" ⟨2, true⟩ true).2 =
        setA [] "k" ⟨⟨2, true⟩, true, false, some []⟩) :=
  ⟨(expose_spec [("k", ⟨⟨1, false⟩, false, true, none⟩)] "k" ⟨2, true⟩ true).2.1,
   (expose_spec [] "k" ⟨2, true⟩ true).2.2⟩

/-- C8 counterexample: the claim says subscribing a duplicate topic
callback "fails by returning a boolean false".  `subscribe` has no
duplicate check at all: re-subscribing topic `t` returns `True` and
overwrites the previous callback. -/
theorem subscribe_duplicate_returns_true :
    (subscribeDirect [("t", ⟨1, false⟩)] "t" ⟨2, false⟩).1 ≠ false ∧
    (subscribeDirect [("t", ⟨1, false⟩)] "t" ⟨2, false⟩).1 = true ∧
    getA (subscribeDirect [("t", ⟨1, false⟩)] "t" ⟨2, false⟩).2 "t" =
      some ⟨2, false⟩ := by
  refine ⟨?_, rfl, rfl⟩
  decide

/-- C8 (amended): registration never throws except in decorator form —
exposing over a running key returns false and leaves the table alone;
subscribing a topic callback (duplicate or not) returns True and
overwrites, it never fails; the decorator-style exposure raises
`KeyError` exactly when the decorated name is already exposed, and
registers the function (returning it) otherwise. -/
theorem registration_failure_modes
    (tbl : List (String × FunctionRecord)) (key name : String) (fn : PyFunc)
    (exclusive : Bool) (cbs : List (String × PyFunc)) (topic : String)
    (f : PyFunc) (r : FunctionRecord) :
    (getA tbl key = some r → r.isRunning = true →
      expose tbl key fn exclusive = (false, tbl)) ∧
    subscribeDirect cbs topic f = (true, setA cbs topic f) ∧
    (getA tbl name = none →
      callableDecorator tbl name fn =
        (.returned fn, setA tbl name ⟨fn, fn.isCoroutineFn, false, none⟩)) ∧
    (getA tbl name = some r →
      callableDecorator tbl name fn =
        (.keyError ("The exposed function \x22" ++ name ++ "\x22 is invalid @python"),
          tbl)) ∧
    (getA tbl name = some r →
      exclusiveCallableDecorator tbl name fn =
        (.keyError ("The exposed function \x22" ++ name ++ "\x22 is invalid @python"),
          tbl)) := by
  refine ⟨?_, rfl, ?_, ?_, ?_⟩
  · intro hg hr
    simp [expose, hg, hr]
  · intro hg
    simp [callableDecorator, hg]
  · intro hg
    simp [callableDecorator, hg]
  · intro hg
    simp [exclusiveCallableDecorator, hg]

/-- C8 witness: the three registration paths at concrete inputs. -/
theorem registration_failure_modes_witness :
    expose [("k", ⟨⟨1, false⟩, false, true, none⟩)] "k" ⟨2, true⟩ false =
      (false, [("k", ⟨⟨1, false⟩, false, true, none⟩)]) ∧
    callableDecorator [] "g" ⟨3, false⟩ =
      (.returned ⟨3, false⟩, setA [] "g" ⟨⟨3, false⟩, false, false, none⟩) ∧
    callableDecorator [("g", ⟨⟨3, false⟩, false, false, none⟩)] "g" ⟨4, false⟩ =
      (.keyError ("The exposed function \x22" ++ "g" ++ "\x22 is invalid @python"),
        [("g", ⟨⟨3, false⟩, false, false, none⟩)]) :=
  ⟨(registration_failure_modes [("k", ⟨⟨1, false⟩, false, true, none⟩)] "k" "g"
      ⟨2, true⟩ false [] "t" ⟨0, false⟩ ⟨⟨1, false⟩, false, true, none⟩).1
      (by decide) (by decide),
   (registration_failure_modes [] "k" "g" ⟨3, false⟩ false [] "t" ⟨0, false⟩
      ⟨⟨0, false⟩, false, false, none⟩).2.2.1 (by decide),
   (registration_failure_modes [("g", ⟨⟨3, false⟩, false, false, none⟩)] "k" "g"
      ⟨4, false⟩ false [] "t" ⟨0, false⟩ ⟨⟨3, false⟩, false, false, none⟩).2.2.2.1
      (by decide)⟩

/-- C9: on a `pub_call` from socket S the broker multicasts the `pub`
envelope to the topic's whole subscription set when the envelope's
`exception` field is the boolean `False` (Python `is False`), and to the
set minus S for every other value — so a subscribed originator is echoed
back exactly when that field is the boolean false, and any other value
there (`null` included) excludes it. -/
theorem pub_fanout_includes_origin_iff_false
    (manager : List (String × List Nat)) (topic : String) (socketId : Nat)
    (suppress : JVal) (subs : List Nat)
    (hg : getA manager topic = some subs) (hmem : socketId ∈ subs) :
    pubFromJsTargets manager topic socketId suppress =
      some (pubFanoutTargets subs socketId suppress) ∧
    (socketId ∈ pubFanoutTargets subs socketId suppress ↔
      suppress = JVal.bool false) := by
  refine ⟨by simp [pubFromJsTargets, hg], ?_⟩
  constructor
  · intro hin
    by_contra hne
    rw [pubFanoutTargets, if_neg hne] at hin
    have h2 := (List.mem_filter.mp hin).2
    simp at h2
  · intro hs
    rw [pubFanoutTargets, if_pos hs]
    exact hmem

/-- C9 witness: with subscribers 3 and 7 on topic `t`, a `pub_call` from
socket 3 echoes back to 3 exactly when the exception field is the
boolean false, and is excluded when it is null. -/
theorem pub_fanout_includes_origin_iff_false_witness :
    pubFromJsTargets [("t", [3, 7])] "t" 3 (JVal.bool false) =
      some (pubFanoutTargets [3, 7] 3 (JVal.bool false)) ∧
    (3 ∈ pubFanoutTargets [3, 7] 3 (JVal.bool false) ↔
      JVal.bool false = JVal.bool false) ∧
    (3 ∈ pubFanoutTargets [3, 7] 3 JVal.null ↔ JVal.null = JVal.bool false) :=
  ⟨(pub_fanout_includes_origin_iff_false [("t", [3, 7])] "t" 3 (JVal.bool false)
      [3, 7] (by decide) (by decide)).1,
   (pub_fanout_includes_origin_iff_false [("t", [3, 7])] "t" 3 (JVal.bool false)
      [3, 7] (by decide) (by decide)).2,
   (pub_fanout_includes_origin_iff_false [("t", [3, 7])] "t" 3 JVal.null
      [3, 7] (by decide) (by decide)).2⟩

/-- C1 counterexample: the pending futures of a call id are an anonymous
list, not per-socket slots.  With two pending slots for call id 5, a
first reply from socket 7 settles the first slot; a duplicate reply from
the same socket 7 is not ignored — it settles the second slot (the one
created for the other target), and likewise for queue acknowledgments
(call id 9). -/
theorem duplicate_reply_consumes_second_slot :
    returnFromJs (returnFromJs [((5 : Int), [none, none])] 7 (.num 5) (.str "a") .null)
        7 (.num 5) (.str "b") .null =
      [((5 : Int), [some (.result 7 (.str "a")), some (.result 7 (.str "b"))])] ∧
    returnFromJs (returnFromJs [((5 : Int), [none, none])] 7 (.num 5) (.str "a") .null)
        7 (.num 5) (.str "b") .null ≠
      returnFromJs [((5 : Int), [none, none])] 7 (.num 5) (.str "a") .null ∧
    queueReturn (queueReturn [((9 : Int), [none, none])] 7 (.num 9) .null)
        7 (.num 9) .null =
      [((9 : Int), [some (.ack 7), some (.ack 7)])] ∧
    queueReturn (queueReturn [((9 : Int), [none, none])] 7 (.num 9) .null)
        7 (.num 9) .null ≠
      queueReturn [((9 : Int), [none, none])] 7 (.num 9) .null := by
  refine ⟨rfl, ?_, rfl, ?_⟩ <;> decide

/-- C1 (amended): correlation resolution is first-come-first-served over
the slot list — an inbound reply settles the first still-pending slot of
its call id regardless of which socket it came from (so a duplicate
reply consumes a further slot); a reply whose id is not an int, is not a
key of the table, or arrives when every slot is settled leaves the table
unchanged; the same holds for queue acknowledgments. -/
theorem correlation_first_free_slot :
    (∀ memory (sid : Nat) (envId data excpt : JVal),
      pyIntValue envId = none →
      returnFromJs memory sid envId data excpt = memory) ∧
    (∀ memory (sid : Nat) (envId data excpt : JVal) (n : Int),
      pyIntValue envId = some n → getA memory n = none →
      returnFromJs memory sid envId data excpt = memory) ∧
    (∀ memory (sid : Nat) (envId data excpt : JVal) (n : Int) slots,
      pyIntValue envId = some n → getA memory n = some slots →
      (∀ s ∈ slots, s ≠ none) →
      returnFromJs memory sid envId data excpt = memory) ∧
    (∀ memory (sid : Nat) (envId data excpt : JVal) (n : Int) xs rest,
      pyIntValue envId = some n →
      getA memory n = some (xs.map some ++ none :: rest) →
      returnFromJs memory sid envId data excpt =
        setA memory n ((xs ++ [functionReplyVal sid data excpt]).map some ++ rest)) ∧
    (∀ memory (sid : Nat) (envId excpt : JVal),
      pyIntValue envId = none →
      queueReturn memory sid envId excpt = memory) ∧
    (∀ memory (sid : Nat) (envId excpt : JVal) (n : Int),
      pyIntValue envId = some n → getA memory n = none →
      queueReturn memory sid envId excpt = memory) ∧
    (∀ memory (sid : Nat) (envId excpt : JVal) (n : Int) slots,
      pyIntValue envId = some n → getA memory n = some slots →
      (∀ s ∈ slots, s ≠ none) →
      queueReturn memory sid envId excpt = memory) ∧
    (∀ memory (sid : Nat) (envId excpt : JVal) (n : Int) xs rest,
      pyIntValue envId = some n →
      getA memory n = some (xs.map some ++ none :: rest) →
      queueReturn memory sid envId excpt =
        setA memory n ((xs ++ [queueReplyVal sid excpt]).map some ++ rest)) := by
  refine ⟨?_, ?_, ?_, ?_, ?_, ?_, ?_, ?_⟩
  · intro memory sid envId data excpt hid
    exact returnFromJs_not_int memory sid envId data excpt hid
  · intro memory sid envId data excpt n hid hg
    exact returnFromJs_not_mem memory sid envId data excpt n hid hg
  · intro memory sid envId data excpt n slots hid hg hdone
    exact returnFromJs_all_done memory sid envId data excpt n slots hid hg hdone
  · intro memory sid envId data excpt n xs rest hid hg
    rw [returnFromJs_mem memory sid envId data excpt n _ hid hg,
      resolveFirst_split]
  · intro memory sid envId excpt hid
    exact queueReturn_not_int memory sid envId excpt hid
  · intro memory sid envId excpt n hid hg
    exact queueReturn_not_mem memory sid envId excpt n hid hg
  · intro memory sid envId excpt n slots hid hg hdone
    exact queueReturn_all_done memory sid envId excpt n slots hid hg hdone
  · intro memory sid envId excpt n xs rest hid hg
    rw [queueReturn_mem memory sid envId excpt n _ hid hg, resolveFirst_split]

/-- C1 witness: the amended behavior at concrete inputs — a reply with a
non-int id is dropped; a reply settles the first pending slot even
though the first slot belongs to another socket. -/
theorem correlation_first_free_slot_witness :
    returnFromJs [((5 : Int), [none, none])] 7 (.str "5") (.str "x") .null =
      [((5 : Int), [none, none])] ∧
    returnFromJs [((5 : Int), [some (.result 2 .null), none])] 7 (.num 5)
        (.str "x") .null =
      setA [((5 : Int), [some (.result 2 .null), none])] 5
        (([FutureVal.result 2 .null] ++ [functionReplyVal 7 (.str "x") .null]).map some
          ++ []) ∧
    queueReturn [((9 : Int), [some (.ack 2), none])] 7 (.num 9) .null =
      setA [((9 : Int), [some (.ack 2), none])] 9
        (([QueueAckVal.ack 2] ++ [queueReplyVal 7 .null]).map some ++ []) :=
  ⟨correlation_first_free_slot.1 [((5 : Int), [none, none])] 7 (.str "5")
      (.str "x") .null (by decide),
   correlation_first_free_slot.2.2.2.1 [((5 : Int), [some (.result 2 .null), none])]
      7 (.num 5) (.str "x") .null 5 [FutureVal.result 2 .null] [] (by decide)
      (by decide),
   correlation_first_free_slot.2.2.2.2.2.2.2 [((9 : Int), [some (.ack 2), none])]
      7 (.num 9) .null 9 [QueueAckVal.ack 2] [] (by decide) (by decide)⟩

theorem regStep_connect_spec (st st' : RegState) (s : Nat)
    (h : regStep st .connect = (st', some s)) :
    1 ≤ s ∧ s ≤ SERIAL_MAX ∧ s ∉ st.pool ∧ st'.pool = st.pool ++ [s] ∧
      st'.serial = s := by
  unfold regStep at h
  rcases ha : appendSocket st.serial st.pool with _ | p
  · rw [ha] at h
    obtain ⟨h1, h2⟩ := Prod.mk.inj h
    exact absurd h2 (by simp)
  · obtain ⟨t, pool'⟩ := p
    rw [ha] at h
    obtain ⟨h1, h2⟩ := Prod.mk.inj h
    have hts : t = s := Option.some.inj h2
    subst hts
    obtain ⟨ha1, ha2, ha3, ha4⟩ := appendSocket_spec st.serial st.pool t pool' ha
    subst h1
    exact ⟨ha1, ha2, ha3, by simpa using ha4, rfl⟩

/-- C5: every assigned socket id is positive (never 0), at most
`SERIAL_MAX = 2^32 − 1`, absent from the pool of currently connected
peers at assignment time (and entered into it); the counter wraps past
the maximum back to 1 and the probe skips ids currently pooled; and an
id already handed out can be assigned again only after a disconnect of
that id occurred in between. -/
theorem socket_id_allocation_spec :
    (∀ st st' s, regStep st .connect = (st', some s) →
      1 ≤ s ∧ s ≤ SERIAL_MAX ∧ s ∉ st.pool ∧ st'.pool = st.pool ++ [s]) ∧
    SERIAL_MAX = 2 ^ 32 - 1 ∧
    nextSerial SERIAL_MAX = 1 ∧
    (∀ (fuel s : Nat) (pool : List Nat), s ∈ pool →
      probeSerial (fuel + 1) s pool = probeSerial fuel (nextSerial s) pool) ∧
    (∀ st st1 s es, regStep st .connect = (st1, some s) →
      (∀ e ∈ es, e ≠ RegEvent.disconnect s) →
      s ∈ (regRun st1 es).pool ∧
      ∀ st2, regStep (regRun st1 es) .connect ≠ (st2, some s)) := by
  refine ⟨?_, by decide, by decide, ?_, ?_⟩
  · intro st st' s h
    obtain ⟨h1, h2, h3, h4, _⟩ := regStep_connect_spec st st' s h
    exact ⟨h1, h2, h3, h4⟩
  · intro fuel s pool hmem
    simp [probeSerial, hmem]
  · intro st st1 s es h1 hnd
    have hs1 : s ∈ st1.pool := by
      rw [(regStep_connect_spec st st1 s h1).2.2.2.1]
      simp
    have hs2 : s ∈ (regRun st1 es).pool := regRun_mem_pool st1 es s hs1 hnd
    refine ⟨hs2, ?_⟩
    intro st2 hEq
    exact (regStep_connect_spec (regRun st1 es) st2 s hEq).2.2.1 hs2

/-- C5 witness: from a fresh registry the first connect assigns id 1
(positive, unique, pooled), and while no disconnect of id 1 occurs it
stays pooled and cannot be assigned again. -/
theorem socket_id_allocation_spec_witness :
    (1 ≤ 1 ∧ 1 ≤ SERIAL_MAX ∧ 1 ∉ (RegState.mk 0 [] 0 0).pool ∧
      (RegState.mk 1 [1] 1 0).pool = (RegState.mk 0 [] 0 0).pool ++ [1]) ∧
    (1 ∈ (regRun (RegState.mk 1 [1] 1 0) [RegEvent.connect]).pool ∧
      ∀ st2, regStep (regRun (RegState.mk 1 [1] 1 0) [RegEvent.connect])
          .connect ≠ (st2, some 1)) :=
  ⟨socket_id_allocation_spec.1 (RegState.mk 0 [] 0 0) (RegState.mk 1 [1] 1 0) 1 rfl,
   socket_id_allocation_spec.2.2.2.2 (RegState.mk 0 [] 0 0) (RegState.mk 1 [1] 1 0)
     1 [RegEvent.connect] rfl (by decide)⟩

theorem deleteSocket_append_self (pool : List Nat) (s : Nat) (h : s ∉ pool) :
    deleteSocket (pool ++ [s]) s = pool := by
  induction pool with
  | nil => simp [deleteSocket]
  | cons a rest ih =>
      have ha : a ≠ s := fun hEq => h (hEq ▸ List.mem_cons_self _ _)
      have hrest : s ∉ rest := fun hmem => h (List.mem_cons_of_mem _ hmem)
      simp only [deleteSocket, List.cons_append, List.filter_cons] at ih ⊢
      simp [ha, ih hrest]
      intro b hb hEq
      exact hrest (hEq ▸ hb)

/-- C6: `on_connect` always sends a `"system"`/`"connect"` envelope
after incrementing the count and assigning an id.  When the limit is
positive and the new count exceeds it, the envelope carries null data
and the rejection text and the connection is closed; otherwise the data
is the assigned socket id and the exception is null.  A limit of 0 never
closes.  The id was assigned either way, and the ensuing disconnect of a
rejected peer restores exactly the previous pool. -/
theorem onConnect_spec (st st' : RegState) (env : SysEnvelope) (closed : Bool)
    (h : onConnect st = some (st', env, closed)) :
    env.protocol = "system" ∧ env.key = "connect" ∧ env.envId = 0 ∧
    st'.connected = st.connected + 1 ∧
    1 ≤ st'.serial ∧ st'.serial ∉ st.pool ∧
    st'.pool = st.pool ++ [st'.serial] ∧
    deleteSocket st'.pool st'.serial = st.pool ∧
    ((0 < st.limit ∧ st.limit < st.connected + 1) →
      env.data = none ∧ env.excpt = some connectionRefusedMsg ∧ closed = true) ∧
    (¬ (0 < st.limit ∧ st.limit < st.connected + 1) →
      env.data = some st'.serial ∧ env.excpt = none ∧ closed = false) ∧
    (st.limit = 0 → closed = false) := by
  unfold onConnect at h
  rcases ha : appendSocket st.serial st.pool with _ | p
  · rw [ha] at h
    exact absurd h (by simp)
  · obtain ⟨sid, pool'⟩ := p
    rw [ha] at h
    obtain ⟨ha1, ha2, ha3, ha4⟩ := appendSocket_spec st.serial st.pool sid pool' ha
    replace h : (if 0 < st.limit ∧ st.limit < st.connected + 1 then
        some (RegState.mk sid pool' (st.connected + 1) st.limit,
          SysEnvelope.mk "system" "connect" 0 none (some connectionRefusedMsg), true)
      else
        some (RegState.mk sid pool' (st.connected + 1) st.limit,
          SysEnvelope.mk "system" "connect" 0 (some sid) none, false)) =
        some (st', env, closed) := h
    by_cases hc : 0 < st.limit ∧ st.limit < st.connected + 1
    · rw [if_pos hc] at h
      obtain ⟨h1, h2⟩ := Prod.mk.inj (Option.some.inj h)
      obtain ⟨h3, h4⟩ := Prod.mk.inj h2
      subst h1
      subst h3
      subst h4
      refine ⟨rfl, rfl, rfl, rfl, ha1, ha3, by simpa using ha4, ?_, ?_, ?_, ?_⟩
      · rw [ha4]
        exact deleteSocket_append_self st.pool sid ha3
      · intro _
        exact ⟨rfl, rfl, rfl⟩
      · intro hn
        exact absurd hc hn
      · intro h0
        rw [h0] at hc
        exact absurd hc.1 (by simp)
    · rw [if_neg hc] at h
      obtain ⟨h1, h2⟩ := Prod.mk.inj (Option.some.inj h)
      obtain ⟨h3, h4⟩ := Prod.mk.inj h2
      subst h1
      subst h3
      subst h4
      refine ⟨rfl, rfl, rfl, rfl, ha1, ha3, by simpa using ha4, ?_, ?_, ?_, ?_⟩
      · rw [ha4]
        exact deleteSocket_append_self st.pool sid ha3
      · intro hcc
        exact absurd hcc hc
      · intro _
        exact ⟨rfl, rfl, rfl⟩
      · intro _
        rfl

/-- C6 witness: an unlimited registry accepts the first peer with an
id-carrying envelope; a registry with limit 1 and one peer connected
rejects the next with null data, the refusal text and a close, and the
ensuing disconnect reclaims the id. -/
theorem onConnect_spec_witness :
    ((RegState.mk 1 [1] 1 0).connected = (RegState.mk 0 [] 0 0).connected + 1 ∧
      deleteSocket (RegState.mk 1 [1] 1 0).pool (RegState.mk 1 [1] 1 0).serial =
        (RegState.mk 0 [] 0 0).pool ∧
      (SysEnvelope.mk "system" "connect" 0 (some 1) none).excpt = none) ∧
    ((0 < (RegState.mk 1 [1] 1 1).limit ∧
        (RegState.mk 1 [1] 1 1).limit < (RegState.mk 1 [1] 1 1).connected + 1) →
      (SysEnvelope.mk "system" "connect" 0 none (some connectionRefusedMsg)).data =
          none ∧
        (SysEnvelope.mk "system" "connect" 0 none
            (some connectionRefusedMsg)).excpt = some connectionRefusedMsg ∧
        true = true) := by
  have h1 := onConnect_spec (RegState.mk 0 [] 0 0) (RegState.mk 1 [1] 1 0)
    (SysEnvelope.mk "system" "connect" 0 (some 1) none) false rfl
  have h2 := onConnect_spec (RegState.mk 1 [1] 1 1) (RegState.mk 2 [1, 2] 2 1)
    (SysEnvelope.mk "system" "connect" 0 none (some connectionRefusedMsg)) true rfl
  exact ⟨⟨h1.2.2.2.1, h1.2.2.2.2.2.2.2.1, ((h1.2.2.2.2.2.2.2.2.2.1 (by decide)).2.1)⟩,
    fun hc => ⟨(h2.2.2.2.2.2.2.2.2.1 hc).1, (h2.2.2.2.2.2.2.2.2.1 hc).2.1, rfl⟩⟩

theorem map_const_none {α : Type} (targets : List Nat) :
    targets.map (fun _ => (none : Option α)) =
      List.replicate targets.length none := by
  induction targets <;> simp [List.replicate, *]

/-- C3: `call.inner` with an empty resolved target set returns the empty
dict and touches nothing; with N targets and M ≤ N distinct sockets
replying before the wait ends, the result dict is exactly the M replies
keyed by the replying sockets' ids (pending slots are dropped), the
correlation entry is gone from `_call_memory`, and a reply for that call
id arriving afterwards has no effect. -/
theorem call_inner_result_spec
    (memory : List (Int × List (Option FutureVal))) (callId : Int)
    (connected : List Nat) (target : TargetSpec) (replies : List ReplyMsg)
    (hfresh : callId ∉ keysA memory)
    (hall : ∀ r ∈ replies, pyIntValue r.envId = some callId)
    (hnd : (replies.map ReplyMsg.socketId).Nodup)
    (hlen : replies.length ≤ (resolveTargets target connected).length) :
    (resolveTargets target connected = [] →
      callFlow memory callId connected target replies = ([], memory)) ∧
    (resolveTargets target connected ≠ [] →
      (callFlow memory callId connected target replies).1 =
        replies.map (fun r => (r.socketId, replyOutcome r)) ∧
      (callFlow memory callId connected target replies).2 = memory ∧
      getA (callFlow memory callId connected target replies).2 callId = none ∧
      ∀ (sid : Nat) (d e : JVal),
        returnFromJs (callFlow memory callId connected target replies).2
          sid (JVal.num callId) d e =
        (callFlow memory callId connected target replies).2) := by
  constructor
  · intro hemp
    simp [callFlow, hemp]
  · intro hne
    have hne' : (resolveTargets target connected).isEmpty = false := by
      simp [List.isEmpty_iff, hne]
    have hvals : replies.map (fun r => functionReplyVal r.socketId r.data r.excpt) =
        replies.map (fun r => functionReplyVal r.socketId r.data r.excpt) := rfl
    have hmem1 : setA memory callId
        ((resolveTargets target connected).map fun _ => none) =
        memory ++ [(callId,
          List.replicate (resolveTargets target connected).length none)] := by
      rw [map_const_none, setA_append_of_not_mem _ _ _ hfresh]
    have happly := applyFunctionReplies_pending memory callId replies []
      (resolveTargets target connected).length hfresh hall hlen
    simp only [List.nil_append, List.map_nil] at happly
    have hkeys : (replies.map fun r =>
        functionReplyVal r.socketId r.data r.excpt).map futureKey =
        replies.map ReplyMsg.socketId := by
      rw [List.map_map]
      refine List.map_congr_left ?_
      intro r _
      exact futureKey_functionReplyVal r.socketId r.data r.excpt
    have hflow : callFlow memory callId connected target replies =
        (collectResult ((replies.map fun r =>
            functionReplyVal r.socketId r.data r.excpt).map some ++
          List.replicate
            ((resolveTargets target connected).length - replies.length) none),
          memory) := by
      simp only [callFlow, hne', Bool.false_eq_true, if_false, hmem1, happly]
      rw [Prod.mk.injEq]
      constructor
      · rw [getA_append_right _ _ _ hfresh]
        simp [getA]
      · rw [eraseA_append_of_not_mem _ _ _ hfresh]
        simp [eraseA]
    have hcollect : collectResult ((replies.map fun r =>
        functionReplyVal r.socketId r.data r.excpt).map some ++
        List.replicate
          ((resolveTargets target connected).length - replies.length) none) =
        replies.map fun r => (r.socketId, replyOutcome r) := by
      rw [collectResult_resolved _ _ (by rw [hkeys]; exact hnd), List.map_map]
      refine List.map_congr_left ?_
      intro r _
      simp only [Function.comp_apply]
      rw [futureKey_functionReplyVal, futureOutcome_functionReplyVal]
    refine ⟨by rw [hflow, hcollect], by rw [hflow], ?_, ?_⟩
    · rw [hflow]
      exact getA_of_not_mem memory callId hfresh
    · intro sid d e
      rw [hflow]
      exact returnFromJs_not_mem memory sid (JVal.num callId) d e callId rfl
        (getA_of_not_mem memory callId hfresh)

/-- C3 witness: two connected targets, one reply from socket 4 within
the window — the result dict is exactly `4 ↦ "x"`, the entry is gone and
a late reply is a no-op. -/
theorem call_inner_result_spec_witness :
    (callFlow [] 1 [4, 9] .all [ReplyMsg.mk 4 (.num 1) (.str "x") .null]).1 =
      [ReplyMsg.mk 4 (.num 1) (.str "x") .null].map
        (fun r => (r.socketId, replyOutcome r)) ∧
    (callFlow [] 1 [4, 9] .all [ReplyMsg.mk 4 (.num 1) (.str "x") .null]).2 = [] ∧
    getA (callFlow [] 1 [4, 9] .all [ReplyMsg.mk 4 (.num 1) (.str "x") .null]).2
      1 = none :=
  have h := (call_inner_result_spec [] 1 [4, 9] .all
    [ReplyMsg.mk 4 (.num 1) (.str "x") .null] (by decide) (by decide) (by decide)
    (by decide)).2 (by decide)
  ⟨h.1, h.2.1, h.2.2.1⟩

/-- C2 counterexample: for a record exposed with `exclusive=False` the
running flag is not true for the whole span of every invocation.  Two
envelopes arrive; task 0 starts, task 1 starts, task 0 completes and
unconditionally writes `running = False` while task 1 is still
executing: the final state has task 1 mid-invocation and the flag
false. -/
theorem nonexclusive_flag_false_during_invocation :
    (runSchedule (execInit false 2) [0, 1, 0]).1.phases[1]? =
      some Phase.executing ∧
    (runSchedule (execInit false 2) [0, 1, 0]).1.running = false := by
  decide

/-- C2 (amended): for a record exposed with `exclusive=True`, every
reachable scheduling of any number of inbound invocations keeps at most
one invocation executing at a time, the running flag is true whenever
one executes, parked waiters are resumed in exactly their arrival order
(the resumed sequence extended by the still-parked queue is the parked
sequence), an arrival that finds the record running parks in one step,
and a completion that finds a waiter pops it, resolves it and writes the
flag back to true in the same atomic step.  (For `exclusive=False`
records the flag can be false during an invocation whenever another
invocation of the same key completes first.) -/
theorem exclusive_function_record_spec (n : Nat) (sched : List Nat) :
    (∀ i j, HoldsBody (runSchedule (execInit true n) sched).1 i →
      HoldsBody (runSchedule (execInit true n) sched).1 j → i = j) ∧
    (∀ (i : Nat), (runSchedule (execInit true n) sched).1.phases[i]? =
        some Phase.executing →
      (runSchedule (execInit true n) sched).1.running = true) ∧
    parkedSeq (runSchedule (execInit true n) sched).2 =
      resumedSeq (runSchedule (execInit true n) sched).2 ++
        (runSchedule (execInit true n) sched).1.waitQ ∧
    (∀ st (t : Nat), st.exclusive = true → st.running = true →
      st.phases[t]? = some Phase.arrived →
      taskStep st t = some
        (ExecState.mk st.exclusive st.running (st.waitQ ++ [t])
          (st.phases.set t Phase.parked), [ExecEvent.parkedAt t])) ∧
    (∀ st (t w : Nat) (rest : List Nat), st.exclusive = true →
      st.phases[t]? = some Phase.executing → st.waitQ = w :: rest →
      taskStep st t = some
        (ExecState.mk st.exclusive true rest
          ((st.phases.set t Phase.done).set w Phase.ready),
          [ExecEvent.resumedAt w])) := by
  obtain ⟨hinv, _⟩ := runSchedule_inv (execInit true n) sched rfl
    (execInit_inv true n)
  obtain ⟨hmx, hrun, hwp, hnd⟩ := hinv
  refine ⟨hmx, ?_, ?_, ?_, ?_⟩
  · intro i hi
    exact hrun.mpr ⟨i, Or.inl hi⟩
  · have hq := runSchedule_queue (execInit true n) sched
    simpa [execInit] using hq
  · intro st t hexcl hrb hp
    unfold taskStep
    rw [hp, hexcl, hrb]
    rfl
  · intro st t w rest hexcl hp hq
    unfold taskStep
    rw [hp, hq, hexcl]
    rfl

/-- C2 witness: an arrival that finds the exclusive record running parks
at the tail of the wait list; a completion with waiter 1 queued resolves
it and keeps the flag true, all in one step. -/
theorem exclusive_function_record_spec_witness :
    taskStep (ExecState.mk true true [] [Phase.arrived]) 0 =
      some (ExecState.mk true true [0] [Phase.parked], [ExecEvent.parkedAt 0]) ∧
    taskStep (ExecState.mk true true [1] [Phase.executing, Phase.parked]) 0 =
      some (ExecState.mk true true [] [Phase.done, Phase.ready],
        [ExecEvent.resumedAt 1]) :=
  ⟨(exclusive_function_record_spec 2 []).2.2.2.1
      (ExecState.mk true true [] [Phase.arrived]) 0 rfl rfl rfl,
   (exclusive_function_record_spec 2 []).2.2.2.2
      (ExecState.mk true true [1] [Phase.executing, Phase.parked]) 0 1 [] rfl
      rfl rfl⟩

end JsMeets
